import Mathlib

/-!
Verification of the protocol/dispatch core of a small Redis-like TCP server
written in Go.  Go byte strings are modelled as `List Char` (one `Char` per
byte), Go maps as association lists with replace-on-insert semantics, and the
wall clock as an explicit integer nanosecond parameter (the unit of Go's
`time.Duration`) threaded through the handlers.  Fallible Go calls (`ReadString`, `Atoi`, `io.ReadFull`) are
modelled with `Option`/`Except`; Go runtime panics (nil function call,
negative `make`, out-of-range slice) are modelled by explicit `panic`-style
result constructors so that crashing and error-returning paths stay
distinguishable.
-/

set_option maxRecDepth 4000

/-- A Go byte string, one `Char` per byte. -/
abbrev GoStr := List Char

/-- Shorthand to turn a Lean string literal into a `GoStr`. -/
def gs (s : String) : GoStr := s.toList

/-- The whitespace test used by `strings.TrimSpace` (ASCII part of
`unicode.IsSpace`: space, tab, newline, vertical tab, form feed, carriage
return). -/
def isSpaceChar (c : Char) : Bool :=
  c = ' ' || c = '\t' || c = '\n' || c.toNat = 11 || c.toNat = 12 || c = '\r'

/-- `strings.TrimSpace`: drop whitespace from both ends. -/
def trimSpace (s : GoStr) : GoStr :=
  ((s.dropWhile isSpaceChar).reverse.dropWhile isSpaceChar).reverse

/-- `bufio.Reader.ReadString('\n')`: split off the shortest head segment
ending in a newline (the newline included).  `none` models the error return
when the stream ends before a newline is found; the Go callers in this repo
all propagate that error. -/
def readLine : List Char → Option (GoStr × List Char)
  | [] => none
  | c :: t =>
    if c = '\n' then some ([c], t)
    else
      match readLine t with
      | none => none
      | some (l, r) => some (c :: l, r)

/-- Decimal digit characters, used to print lengths in replies. -/
def digitChar : Nat → Char
  | 0 => '0'
  | 1 => '1'
  | 2 => '2'
  | 3 => '3'
  | 4 => '4'
  | 5 => '5'
  | 6 => '6'
  | 7 => '7'
  | 8 => '8'
  | _ => '9'

/-- Fuel-indexed decimal printer; the fuel only needs to exceed the number
of digits, and `natToStr` always supplies enough. -/
def natToStrAux : Nat → Nat → GoStr
  | 0, _ => []
  | fuel + 1, n =>
    if n < 10 then [digitChar n]
    else natToStrAux fuel (n / 10) ++ [digitChar (n % 10)]

/-- `fmt.Sprintf("%d", n)` for a nonnegative length. -/
def natToStr (n : Nat) : GoStr := natToStrAux (n + 1) n

/-- The base-10 digit test of `strconv.Atoi`. -/
def isDigitChar (c : Char) : Bool := '0' ≤ c && c ≤ '9'

/-- Digit accumulation used to give `strconv.Atoi` a value. -/
def parseNatFrom (acc : Nat) (s : GoStr) : Nat :=
  s.foldl (fun a c => a * 10 + (c.toNat - 48)) acc

/-- `strconv.Atoi`: optional sign, then one or more base-10 digits, and the
result must fit in a 64-bit `int`; anything else is an error. -/
def goAtoi (s : GoStr) : Except Unit Int :=
  match s with
  | [] => .error ()
  | c :: t =>
    let neg : Bool := c = '-'
    let ds : GoStr := if c = '-' ∨ c = '+' then t else c :: t
    if ds = [] then .error ()
    else if ds.all isDigitChar then
      let v : Int := if neg then -(parseNatFrom 0 ds : Int) else (parseNatFrom 0 ds : Int)
      if v < -(2 ^ 63) ∨ v > 2 ^ 63 - 1 then .error () else .ok v
    else .error ()

/-- `strings.ToUpper` (byte-wise ASCII view). -/
def goToUpper (s : GoStr) : GoStr := s.map Char.toUpper

/-- A decoded RESP runtime value as held in a Go `interface{}`: a string,
a nested array, or the nil interface produced by a `$-1` null bulk. -/
inductive RVal where
  | str (s : GoStr)
  | arr (xs : List RVal)
  | nil
deriving Repr

/-- Result of one `readRESP` call: a value plus the unconsumed stream, a
returned error, a Go runtime panic, or fuel exhaustion of the model (never
hit on the inputs reasoned about here). -/
inductive DecRes where
  | ok (v : RVal) (rest : List Char)
  | err
  | panic
  | fuelOut
deriving Repr

/-- Result of the element loop inside the array branch of `readRESP`. -/
inductive ArrRes where
  | ok (vs : List RVal) (rest : List Char)
  | err
  | panic
  | fuelOut
deriving Repr

mutual

/-- `readRESP` with fuel (one unit per recursive entry).  Faithful to the
source: `+`/`-`/`:` return the trimmed line; `$` reads a length line, treats
`-1` as nil, panics for any length below `-1` (negative `make` or the
`buf[:size]` slice), reads `size+2` bytes and drops the last two without
validating them; `*` reads a count line and panics on a negative count
(negative `make`), otherwise decodes that many elements; any other prefix
byte is an error. -/
def readRESPF : Nat → List Char → DecRes
  | 0, _ => .fuelOut
  | _ + 1, [] => .err
  | fuel + 1, c :: t =>
    if c = '+' ∨ c = '-' ∨ c = ':' then
      match readLine t with
      | none => .err
      | some (line, r) => .ok (.str (trimSpace line)) r
    else if c = '$' then
      match readLine t with
      | none => .err
      | some (line, r) =>
        match goAtoi (trimSpace line) with
        | .error _ => .err
        | .ok size =>
          if size = -1 then .ok .nil r
          else if size < -1 then .panic
          else if r.length < size.toNat + 2 then .err
          else .ok (.str (r.take size.toNat)) (r.drop (size.toNat + 2))
    else if c = '*' then
      match readLine t with
      | none => .err
      | some (line, r) =>
        match goAtoi (trimSpace line) with
        | .error _ => .err
        | .ok count =>
          if count < 0 then .panic
          else
            match readArrF fuel count.toNat r with
            | .ok vs rest2 => .ok (.arr vs) rest2
            | .err => .err
            | .panic => .panic
            | .fuelOut => .fuelOut
    else .err

/-- The `for i := 0; i < count; i++` element loop of the array branch. -/
def readArrF : Nat → Nat → List Char → ArrRes
  | _, 0, input => .ok [] input
  | 0, _ + 1, _ => .fuelOut
  | fuel + 1, n + 1, input =>
    match readRESPF fuel input with
    | .ok v rest =>
      match readArrF fuel n rest with
      | .ok vs rest2 => .ok (v :: vs) rest2
      | .err => .err
      | .panic => .panic
      | .fuelOut => .fuelOut
    | .err => .err
    | .panic => .panic
    | .fuelOut => .fuelOut

end

/-- `readRESP` on a whole stream.  Each recursive entry consumes input
bytes, so input length bounds the recursion depth and `length + 1` fuel is
ample for every stream the Go loop terminates on. -/
def readRESP (input : List Char) : DecRes :=
  readRESPF (input.length + 1) input

/-- Result of one `readCommand` call: `cmd name args rest` models the Go
return `(name, args, nil)` (an empty name is the caller's skip signal),
`err` models a returned error, `panic` a runtime panic inside `readRESP`. -/
inductive CmdRes where
  | cmd (name : GoStr) (args : List RVal) (rest : List Char)
  | err
  | panic
  | fuelOut
deriving Repr

/-- `readCommand`: peek one byte; a non-`*` byte means an inline command
(one line, trimmed and upper-cased, no arguments); a `*` byte means a RESP
array whose element 0 (which must be a string) is upper-cased into the
command name and whose remaining elements are the arguments. -/
def readCommand (input : List Char) : CmdRes :=
  match input with
  | [] => .err
  | c :: _ =>
    if c ≠ '*' then
      match readLine input with
      | none => .err
      | some (line, rest) => .cmd (goToUpper (trimSpace line)) [] rest
    else
      match readRESP input with
      | .ok v rest =>
        match v with
        | .arr [] => .cmd [] [] rest
        | .arr (first :: args) =>
          match first with
          | .str s => .cmd (goToUpper s) args rest
          | _ => .err
        | _ => .cmd [] [] rest
      | .err => .err
      | .panic => .panic
      | .fuelOut => .fuelOut

example : readRESP (gs "$3\r\nfoo\r\n") = .ok (.str (gs "foo")) [] := by rfl
example : readRESP (gs "$-1\r\n") = .ok .nil [] := by rfl
example : readRESP (gs "$-2\r\n") = .panic := by rfl
example : readRESP (gs "*-1\r\n") = .panic := by rfl
example : readRESP (gs "$abc\r\n") = .err := by rfl
example :
    readCommand (gs "*3\r\n$3\r\nset\r\n$3\r\nfoo\r\n$3\r\nbar\r\n") =
      .cmd (gs "SET") [.str (gs "foo"), .str (gs "bar")] [] := by rfl
example : readCommand (gs "ping\r\nrest") = .cmd (gs "PING") [] (gs "rest") := by rfl

/-- Association-list lookup modelling a Go map read (`m[k]`). -/
def mapGet {α : Type} (m : List (GoStr × α)) (k : GoStr) : Option α :=
  match m with
  | [] => none
  | p :: t => if p.1 = k then some p.2 else mapGet t k

/-- Association-list removal modelling Go `delete(m, k)`. -/
def mapErase {α : Type} (m : List (GoStr × α)) (k : GoStr) : List (GoStr × α) :=
  match m with
  | [] => []
  | p :: t => if p.1 = k then mapErase t k else p :: mapErase t k

/-- Association-list insertion modelling a Go map write (`m[k] = v`):
the new binding replaces any old one. -/
def mapSet {α : Type} (m : List (GoStr × α)) (k : GoStr) (v : α) : List (GoStr × α) :=
  (k, v) :: mapErase m k

/-- Two's-complement wraparound of Go's signed 64-bit arithmetic: the value
an `int64` expression takes when its mathematical value overflows.  Go's
`time.Duration` is an `int64` of nanoseconds, so the product
`time.Duration(n) * time.Millisecond` wraps through this. -/
def int64Wrap (x : Int) : Int := (x + 2 ^ 63) % 2 ^ 64 - 2 ^ 63

/-- The `RedisServer` struct: the value map and the expiration map, the
latter holding absolute instants in nanoseconds (the resolution of
`time.Time` arithmetic). -/
structure RedisServer where
  storage : List (GoStr × GoStr)
  expirations : List (GoStr × Int)
deriving Repr

/-- The server state `main` starts from: both maps empty. -/
def emptyServer : RedisServer := ⟨[], []⟩

/-- `addReplyErrorArity`. -/
def addReplyErrorArity : GoStr := gs "-ERR wrong number of arguments\r\n"

mutual

/-- `addReplyBulk`: an empty argument list yields `+\r\n`, otherwise the
element loop runs.  Faithful to the source, including the early `return`
statements of the loop. -/
def addReplyBulk (args : List RVal) : GoStr :=
  if args.isEmpty then gs "+\r\n" else bulkLoop [] args

/-- The `for _, arg := range args` loop of `addReplyBulk` with its
accumulated buffer: a string appends its bulk encoding; a nested list
RETURNS `addReplyBulk` of the nested list (dropping the buffer and the
remaining elements); the nil interface returns an unknown-type error. -/
def bulkLoop (acc : GoStr) (args : List RVal) : GoStr :=
  match args with
  | [] => acc
  | .str s :: rest =>
    bulkLoop (acc ++ '$' :: natToStr s.length ++ gs "\r\n" ++ s ++ gs "\r\n") rest
  | .arr v :: _ => addReplyBulk v
  | .nil :: _ => gs "-ERR Unknown argument type <nil>\r\n"

end

/-- The handlers the binary knows how to resolve by name. -/
inductive HandlerRef where
  | pingH
  | echoH
  | setH
  | getH
deriving Repr, DecidableEq

/-- `getFunctionByName`: the fixed, closed token-to-handler mapping;
unknown tokens resolve to `none` (Go returns a nil function). -/
def getFunctionByName (name : GoStr) : Option HandlerRef :=
  if name = gs "pingCommand" then some .pingH
  else if name = gs "echoCommand" then some .echoH
  else if name = gs "handleSetCommand" then some .setH
  else if name = gs "handleGetCommand" then some .getH
  else none

/-- The fields of a parsed descriptor entry (`CommandInfo`) consumed by the
loader. -/
structure CommandInfoM where
  group : GoStr
  arity : Int
  functionName : GoStr
  commandFlags : List GoStr
  aclCategories : List GoStr
deriving Repr

/-- A registry record (`RedisCommand`).  The handler reference is `none`
when the descriptor's function token was unrecognized. -/
structure RedisCommand where
  name : GoStr
  function : Option HandlerRef
  group : GoStr
  minArgs : Int
  cmdFlags : Nat
  category : GoStr
deriving Repr

/-- Flag packing of the loader: `FAST` and `SENTINEL` set their bits,
anything else is dropped. -/
def packFlags (flags : List GoStr) : Nat :=
  flags.foldl
    (fun acc f =>
      if f = gs "FAST" then acc ||| 1
      else if f = gs "SENTINEL" then acc ||| 2
      else acc)
    0

/-- `strings.Join(l, ",")`. -/
def joinComma (l : List GoStr) : GoStr := List.intercalate (gs ",") l

/-- The record the loader builds for one descriptor entry. -/
def mkRedisCommand (cmdName : GoStr) (info : CommandInfoM) : RedisCommand :=
  { name := cmdName
    function := getFunctionByName info.functionName
    group := info.group
    minArgs := info.arity
    cmdFlags := packFlags info.commandFlags
    category := joinComma info.aclCategories }

/-- `loadCommandsFromJSON`, past the file I/O: for each parsed descriptor
entry the registry gains `commandTable[cmdName] = cmd`, keyed by the
descriptor's name token exactly as written (no case normalization). -/
def loadCommands (entries : List (GoStr × CommandInfoM)) : List (GoStr × RedisCommand) :=
  entries.foldl (fun table e => mapSet table e.1 (mkRedisCommand e.1 e.2)) []

/-- The zero `RedisCommand` value a Go map read returns for a missing key. -/
def zeroRedisCommand : RedisCommand := ⟨[], none, [], 0, 0, []⟩

instance : Inhabited CommandInfoM := ⟨⟨[], 0, [], [], []⟩⟩

instance : Inhabited RedisCommand := ⟨zeroRedisCommand⟩

/-- `redisCommandTable[cmd]` in single-value position: the record or the
zero value. -/
def lookupOrZero (table : List (GoStr × RedisCommand)) (k : GoStr) : RedisCommand :=
  (mapGet table k).getD zeroRedisCommand

/-- `addReply`: `+PONG` for the PING record, otherwise an unknown-command
error naming the record. -/
def addReply (command : RedisCommand) : GoStr :=
  if command.name = gs "PING" then gs "+PONG\r\n"
  else gs "-ERR Unknown command " ++ command.name ++ gs "\r\n"

/-- `handlePingCommand`: more than one argument is an arity error, zero
arguments reply via `addReply` on the registry record for `cmd`, one
argument echoes through `addReplyBulk`. -/
def handlePingCommand (table : List (GoStr × RedisCommand)) (cmd : GoStr)
    (args : List RVal) : GoStr :=
  if args.length > 1 then addReplyErrorArity
  else if args.length = 0 then addReply (lookupOrZero table cmd)
  else addReplyBulk args

/-- `handleEchoCommand`. -/
def handleEchoCommand (_cmd : GoStr) (args : List RVal) : GoStr :=
  match args with
  | [a] =>
    match a with
    | .str s => addReplyBulk [.str s]
    | _ => gs "-ERR Invalid argument type\r\n"
  | _ => addReplyErrorArity

/-- `handleSetCommand`, with the clock (`time.Now()` in nanoseconds) as an
explicit `now` parameter.  Returns the reply and the updated server.  The
expiration is `time.Now().Add(time.Duration(expiryInt) * time.Millisecond)`:
the duration product is int64 nanosecond arithmetic, so it is the wrapped
value `int64Wrap (expiryInt * 1000000)` that gets added (a `Time.Add`
whose monotonic part would overflow degrades to exact wall arithmetic). -/
def handleSetCommand (server : RedisServer) (now : Int) (_cmd : GoStr)
    (args : List RVal) : GoStr × RedisServer :=
  match args with
  | [a0, a1] =>
    match a0 with
    | .str key =>
      match a1 with
      | .str value =>
        (gs "+OK\r\n",
          ⟨mapSet server.storage key value, mapErase server.expirations key⟩)
      | _ => (gs "-ERR Invalid value type\r\n", server)
    | _ => (gs "-ERR Invalid key type\r\n", server)
  | [a0, a1, a2, a3] =>
    match a0 with
    | .str key =>
      match a1 with
      | .str value =>
        match a2 with
        | .str expiryOption =>
          if goToUpper expiryOption = gs "PX" then
            match a3 with
            | .str expiry =>
              match goAtoi expiry with
              | .error _ => (gs "-ERR Invalid expiry value\r\n", server)
              | .ok expiryInt =>
                (gs "+OK\r\n",
                  ⟨mapSet server.storage key value,
                    mapSet server.expirations key
                      (now + int64Wrap (expiryInt * 1000000))⟩)
            | _ => (gs "-ERR Invalid expiry type\r\n", server)
          else (gs "-ERR Invalid expiry option\r\n", server)
        | _ => (gs "-ERR Invalid expiry option\r\n", server)
      | _ => (gs "-ERR Invalid value type\r\n", server)
    | _ => (gs "-ERR Invalid key type\r\n", server)
  | _ => (addReplyErrorArity, server)

/-- `handleGetCommand`: one argument; lazily expires the key when its
recorded instant exists and `time.Now().After(expiration)` holds, i.e. when
`now` is strictly later. -/
def handleGetCommand (server : RedisServer) (now : Int) (_cmd : GoStr)
    (args : List RVal) : GoStr × RedisServer :=
  match args with
  | [a0] =>
    match a0 with
    | .str key =>
      match mapGet server.expirations key with
      | some expiration =>
        if now > expiration then
          (gs "$-1\r\n",
            ⟨mapErase server.storage key, mapErase server.expirations key⟩)
        else
          match mapGet server.storage key with
          | some value => (addReplyBulk [.str value], server)
          | none => (gs "$-1\r\n", server)
      | none =>
        match mapGet server.storage key with
        | some value => (addReplyBulk [.str value], server)
        | none => (gs "$-1\r\n", server)
    | _ => (gs "-ERR Invalid key type\r\n", server)
  | _ => (addReplyErrorArity, server)

/-- Running one resolved handler, mirroring the uniform Go signature
`func(server, cmd, args) []byte`; PING and ECHO leave the store untouched. -/
def applyHandler (table : List (GoStr × RedisCommand)) (h : HandlerRef)
    (server : RedisServer) (now : Int) (cmd : GoStr) (args : List RVal) :
    GoStr × RedisServer :=
  match h with
  | .pingH => (handlePingCommand table cmd args, server)
  | .echoH => (handleEchoCommand cmd args, server)
  | .setH => handleSetCommand server now cmd args
  | .getH => handleGetCommand server now cmd args

/-- Outcome of dispatching one decoded command in `handleCommands`: either
a reply (with the possibly updated store) or a runtime panic. -/
inductive DispatchOutcome where
  | reply (r : GoStr) (s : RedisServer)
  | panic
deriving Repr

/-- The body of `handleCommands` for one request: look the name up in the
registry; a miss replies with the unknown-command error; a hit calls
`command.Function` — which, when the descriptor's function token was
unrecognized, is Go's nil function and the call panics. -/
def dispatchOne (table : List (GoStr × RedisCommand)) (server : RedisServer)
    (now : Int) (cmd : GoStr) (args : List RVal) : DispatchOutcome :=
  match mapGet table cmd with
  | some command =>
    match command.function with
    | some h =>
      let pr := applyHandler table h server now cmd args
      .reply pr.1 pr.2
    | none => .panic
  | none => .reply (gs "-ERR Unknown command: " ++ cmd ++ gs "\r\n") server

example :
    handleSetCommand emptyServer 5 (gs "SET") [.str (gs "foo"), .str (gs "bar")] =
      (gs "+OK\r\n", ⟨[(gs "foo", gs "bar")], []⟩) := by rfl
example :
    handleGetCommand ⟨[(gs "foo", gs "bar")], []⟩ 5 (gs "GET") [.str (gs "foo")] =
      (gs "$3\r\nbar\r\n", ⟨[(gs "foo", gs "bar")], []⟩) := by
  simp [handleGetCommand, addReplyBulk, bulkLoop, mapGet, gs, natToStr, natToStrAux, digitChar]
example :
    handleGetCommand ⟨[(gs "foo", gs "bar")], [(gs "foo", 4)]⟩ 5 (gs "GET")
        [.str (gs "foo")] = (gs "$-1\r\n", ⟨[], []⟩) := by rfl
example :
    handleGetCommand ⟨[(gs "foo", gs "bar")], [(gs "foo", 5)]⟩ 5 (gs "GET")
        [.str (gs "foo")] = (gs "$3\r\nbar\r\n", ⟨[(gs "foo", gs "bar")], [(gs "foo", 5)]⟩) := by
  simp [handleGetCommand, addReplyBulk, bulkLoop, mapGet, gs, natToStr, natToStrAux, digitChar]

/-- Modelled from the spec: the array-of-bulk-strings request framing that
clients put on the wire (`$<len>\r\n<bytes>\r\n` for one element); the
repository contains only the decoder, not this client-side encoder. -/
def encodeBulkWire (s : GoStr) : List Char :=
  '$' :: natToStr s.length ++ gs "\r\n" ++ s ++ gs "\r\n"

/-- Modelled from the spec: a whole request frame,
`*<n>\r\n` followed by the bulk encoding of each element. -/
def encodeFrame (l : List GoStr) : List Char :=
  '*' :: natToStr l.length ++ gs "\r\n" ++ (l.map encodeBulkWire).flatten

theorem digitChar_isDigit (d : Nat) (h : d < 10) : isDigitChar (digitChar d) = true := by
  interval_cases d <;> decide

theorem digitChar_toNat (d : Nat) (h : d < 10) : (digitChar d).toNat - 48 = d := by
  interval_cases d <;> decide

theorem natToStrAux_ne_nil (fuel n : Nat) (h : n < fuel) : natToStrAux fuel n ≠ [] := by
  match fuel with
  | fuel + 1 =>
    rw [natToStrAux]
    by_cases h10 : n < 10 <;> simp [h10]

theorem natToStrAux_digits (fuel : Nat) :
    ∀ n, n < fuel → ∀ c ∈ natToStrAux fuel n, isDigitChar c = true := by
  induction fuel with
  | zero => intro n hn; omega
  | succ fuel ih =>
    intro n hn c hc
    rw [natToStrAux] at hc
    by_cases h10 : n < 10
    · simp [h10] at hc
      subst hc
      exact digitChar_isDigit n h10
    · simp [h10, List.mem_append] at hc
      rcases hc with hc | hc
      · have hdiv : n / 10 < n := Nat.div_lt_self (by omega) (by omega)
        exact ih (n / 10) (by omega) c hc
      · subst hc
        exact digitChar_isDigit (n % 10) (Nat.mod_lt n (by omega))

theorem natToStrAux_parse (fuel : Nat) :
    ∀ n acc, n < fuel →
      parseNatFrom acc (natToStrAux fuel n) =
        acc * 10 ^ (natToStrAux fuel n).length + n := by
  induction fuel with
  | zero => intro n acc hn; omega
  | succ fuel ih =>
    intro n acc hn
    rw [natToStrAux]
    by_cases h10 : n < 10
    · simp only [h10, if_pos]
      simp [parseNatFrom, List.foldl_cons, digitChar_toNat n h10]
    · simp only [h10, if_neg, if_false]
      have hdiv : n / 10 < n := Nat.div_lt_self (by omega) (by omega)
      have hrec := ih (n / 10) acc (by omega)
      simp only [parseNatFrom, List.foldl_append] at hrec ⊢
      rw [hrec]
      simp only [List.foldl_cons, List.foldl_nil, List.length_append,
        List.length_singleton]
      rw [digitChar_toNat (n % 10) (Nat.mod_lt n (by omega))]
      have hpow : 10 ^ ((natToStrAux fuel (n / 10)).length + 1) =
          10 ^ (natToStrAux fuel (n / 10)).length * 10 := by
        rw [pow_succ]
      rw [hpow]
      set A := 10 ^ (natToStrAux fuel (n / 10)).length with hA
      obtain ⟨q, r, hqr, hr⟩ : ∃ q r, n = 10 * q + r ∧ r < 10 :=
        ⟨n / 10, n % 10, by omega, by omega⟩
      have hq : n / 10 = q := by omega
      have hrm : n % 10 = r := by omega
      rw [hq, hrm, hqr]
      ring

theorem natToStr_ne_nil (n : Nat) : natToStr n ≠ [] :=
  natToStrAux_ne_nil (n + 1) n (by omega)

theorem natToStr_digits (n : Nat) : ∀ c ∈ natToStr n, isDigitChar c = true :=
  natToStrAux_digits (n + 1) n (by omega)

theorem natToStr_parse (n : Nat) : parseNatFrom 0 (natToStr n) = n := by
  have := natToStrAux_parse (n + 1) n 0 (by omega)
  simpa [natToStr] using this

theorem isDigitChar_ne_nl {c : Char} (h : isDigitChar c = true) : ¬(c = '\n') := by
  intro he; subst he; simp [isDigitChar] at h

theorem isDigitChar_not_space {c : Char} (h : isDigitChar c = true) :
    isSpaceChar c = false := by
  simp only [isDigitChar, Bool.and_eq_true, decide_eq_true_eq] at h
  have h0 : 48 ≤ c.toNat := h.1
  simp only [isSpaceChar, Bool.or_eq_false_iff, decide_eq_false_iff_not]
  refine ⟨⟨⟨⟨⟨?_, ?_⟩, ?_⟩, ?_⟩, ?_⟩, ?_⟩ <;>
    first
    | omega
    | · intro he; subst he; omega
    | · intro he; rw [he] at h0; simp at h0

theorem isDigitChar_ne_minus {c : Char} (h : isDigitChar c = true) : ¬(c = '-') := by
  intro he; subst he; simp [isDigitChar] at h

theorem isDigitChar_ne_plus {c : Char} (h : isDigitChar c = true) : ¬(c = '+') := by
  intro he; subst he; simp [isDigitChar] at h

theorem readLine_append (pre : List Char) (rest : List Char)
    (h : ∀ c ∈ pre, ¬(c = '\n')) :
    readLine (pre ++ '\n' :: rest) = some (pre ++ ['\n'], rest) := by
  induction pre with
  | nil => simp [readLine]
  | cons a t ih =>
    have ha : ¬(a = '\n') := h a (by simp)
    simp only [List.cons_append, readLine, ha, if_false, if_neg, List.append_eq]
    rw [ih (fun c hc => h c (by simp [hc]))]

theorem dropWhile_false {p : Char → Bool} {l : List Char}
    (h : ∀ c ∈ l, p c = false) : l.dropWhile p = l := by
  induction l with
  | nil => rfl
  | cons a t ih =>
    have := h a (by simp)
    simp [List.dropWhile_cons, this]

theorem trimSpace_crlf (ds : GoStr) (h : ∀ c ∈ ds, isSpaceChar c = false) :
    trimSpace (ds ++ gs "\r\n") = ds := by
  have hgs : gs "\r\n" = ['\r', '\n'] := rfl
  rw [hgs]
  unfold trimSpace
  cases ds with
  | nil => decide
  | cons a t =>
    have ha := h a (by simp)
    simp only [List.cons_append, List.dropWhile_cons, ha, Bool.false_eq_true,
      if_false, if_neg]
    have hrev : (a :: (t ++ ['\r', '\n'])).reverse = '\n' :: '\r' :: (a :: t).reverse := by
      simp
    rw [hrev]
    have h1 : isSpaceChar '\n' = true := by decide
    have h2 : isSpaceChar '\r' = true := by decide
    simp only [List.dropWhile_cons, h1, h2, if_pos, if_true]
    have hall : ∀ c ∈ (a :: t).reverse, isSpaceChar c = false := by
      intro c hc
      rw [List.mem_reverse] at hc
      exact h c hc
    rw [dropWhile_false hall]
    simp

theorem goAtoi_natToStr (n : Nat) (h : n < 2 ^ 63) :
    goAtoi (natToStr n) = .ok (n : Int) := by
  obtain ⟨c, t, hct⟩ := List.exists_cons_of_ne_nil (natToStr_ne_nil n)
  have hcdig : isDigitChar c = true := natToStr_digits n c (by rw [hct]; simp)
  have hsign : ¬(c = '-' ∨ c = '+') := by
    rintro (he | he)
    · exact isDigitChar_ne_minus hcdig he
    · exact isDigitChar_ne_plus hcdig he
  have halldig : (c :: t).all isDigitChar = true := by
    rw [← hct, List.all_eq_true]
    exact natToStr_digits n
  have hparse : parseNatFrom 0 (c :: t) = n := by rw [← hct]; exact natToStr_parse n
  have hcneg : ¬(c = '-') := isDigitChar_ne_minus hcdig
  have hcplus : ¬(c = '+') := isDigitChar_ne_plus hcdig
  have halldig2 : ∀ x ∈ c :: t, isDigitChar x = true := by
    rw [← hct]
    exact natToStr_digits n
  have hrange2 :
      ¬((n : Int) < -9223372036854775808 ∨ (9223372036854775807 : Int) < (n : Int)) := by
    push_neg
    constructor <;> omega
  rw [hct]
  simp [goAtoi, hsign, halldig, hparse, hcneg, hcplus, halldig2, hrange2]
  constructor <;> omega

theorem natToStr_no_nl (n : Nat) : ∀ c ∈ natToStr n, ¬(c = '\n') :=
  fun c hc => isDigitChar_ne_nl (natToStr_digits n c hc)

theorem natToStr_no_space (n : Nat) : ∀ c ∈ natToStr n, isSpaceChar c = false :=
  fun c hc => isDigitChar_not_space (natToStr_digits n c hc)

theorem readRESPF_bulk (f : Nat) (s : GoStr) (rest : List Char)
    (h : s.length < 2 ^ 63) :
    readRESPF (f + 1) (encodeBulkWire s ++ rest) = .ok (.str s) rest := by
  have hshape : encodeBulkWire s ++ rest =
      '$' :: ((natToStr s.length ++ ['\r']) ++ '\n' :: ((s ++ ['\r', '\n']) ++ rest)) := by
    simp [encodeBulkWire, gs]
  rw [hshape]
  have hpre : ∀ c ∈ natToStr s.length ++ ['\r'], ¬(c = '\n') := by
    intro c hc
    rcases List.mem_append.mp hc with hc | hc
    · exact natToStr_no_nl _ c hc
    · simp at hc
      subst hc
      decide
  have hline := readLine_append (natToStr s.length ++ ['\r'])
    ((s ++ ['\r', '\n']) ++ rest) hpre
  have htrim : trimSpace ((natToStr s.length ++ ['\r']) ++ ['\n']) = natToStr s.length := by
    have hgrp : (natToStr s.length ++ ['\r']) ++ ['\n'] = natToStr s.length ++ gs "\r\n" := by
      simp [gs]
    rw [hgrp]
    exact trimSpace_crlf _ (natToStr_no_space _)
  have hatoi := goAtoi_natToStr s.length h
  simp only [readRESPF, hline, htrim, hatoi]
  have hc1 : ¬('$' = '+' ∨ '$' = '-' ∨ '$' = ':') := by decide
  have hc2 : ('$' : Char) = '$' := rfl
  simp only [hc1, if_false, if_neg, hc2, if_pos, if_true]
  have hm1 : ¬((s.length : Int) = -1) := by omega
  have hm2 : ¬((s.length : Int) < -1) := by omega
  simp only [hm1, hm2, if_false, if_neg]
  have htn : ((s.length : Int)).toNat = s.length := by omega
  rw [htn]
  have hlen : ¬(((s ++ ['\r', '\n']) ++ rest).length < s.length + 2) := by
    simp [List.length_append]
  simp only [hlen, if_false, if_neg]
  have htake : ((s ++ ['\r', '\n']) ++ rest).take s.length = s := by
    rw [List.append_assoc]
    exact List.take_left s (['\r', '\n'] ++ rest)
  have hdrop : ((s ++ ['\r', '\n']) ++ rest).drop (s.length + 2) = rest := by
    have hl : (s ++ ['\r', '\n']).length = s.length + 2 := by simp
    rw [← hl]
    exact List.drop_left (s ++ ['\r', '\n']) rest
  rw [htake, hdrop]

theorem readArrF_bulks (l : List GoStr) :
    ∀ f (rest : List Char), (∀ s ∈ l, s.length < 2 ^ 63) →
      readArrF (f + 2 * l.length) l.length ((l.map encodeBulkWire).flatten ++ rest) =
        .ok (l.map RVal.str) rest := by
  induction l with
  | nil =>
    intro f rest _
    simp [readArrF]
  | cons s t ih =>
    intro f rest h
    have harith : f + 2 * (s :: t).length = (f + 2 * t.length + 1) + 1 := by
      simp [List.length_cons]
      omega
    rw [harith]
    simp only [List.map_cons, List.flatten_cons, List.append_assoc, List.length_cons]
    have hbulk := readRESPF_bulk (f + 2 * t.length) s
      ((t.map encodeBulkWire).flatten ++ rest) (h s (by simp))
    simp only [readArrF, hbulk]
    have harith2 : f + 2 * t.length + 1 = (f + 1) + 2 * t.length := by omega
    rw [harith2, ih (f + 1) rest (fun x hx => h x (by simp [hx]))]

theorem encodeBulkWire_len (s : GoStr) : 6 ≤ (encodeBulkWire s).length := by
  have := List.length_pos.mpr (natToStr_ne_nil s.length)
  simp [encodeBulkWire, gs, List.length_append]
  omega

theorem flatten_bulks_len (l : List GoStr) :
    2 * l.length ≤ ((l.map encodeBulkWire).flatten).length := by
  induction l with
  | nil => simp
  | cons s t ih =>
    have := encodeBulkWire_len s
    simp only [List.map_cons, List.flatten_cons, List.length_append, List.length_cons]
    omega

theorem readRESP_encodeFrame (l : List GoStr) (h1 : ∀ s ∈ l, s.length < 2 ^ 63)
    (h2 : l.length < 2 ^ 63) :
    readRESP (encodeFrame l) = .ok (.arr (l.map RVal.str)) [] := by
  have hshape : encodeFrame l =
      '*' :: ((natToStr l.length ++ ['\r']) ++ '\n' :: (l.map encodeBulkWire).flatten) := by
    simp [encodeFrame, gs]
  rw [readRESP, hshape]
  have hpre : ∀ c ∈ natToStr l.length ++ ['\r'], ¬(c = '\n') := by
    intro c hc
    rcases List.mem_append.mp hc with hc | hc
    · exact natToStr_no_nl _ c hc
    · simp at hc
      subst hc
      decide
  have hline := readLine_append (natToStr l.length ++ ['\r'])
    ((l.map encodeBulkWire).flatten) hpre
  have htrim : trimSpace ((natToStr l.length ++ ['\r']) ++ ['\n']) = natToStr l.length := by
    have hgrp : (natToStr l.length ++ ['\r']) ++ ['\n'] = natToStr l.length ++ gs "\r\n" := by
      simp [gs]
    rw [hgrp]
    exact trimSpace_crlf _ (natToStr_no_space _)
  have hatoi := goAtoi_natToStr l.length h2
  simp only [List.length_cons, readRESPF, hline, htrim, hatoi]
  have hc1 : ¬('*' = '+' ∨ '*' = '-' ∨ '*' = ':') := by decide
  have hc2 : ¬(('*' : Char) = '$') := by decide
  simp only [hc1, hc2, if_false, if_neg]
  have hc3 : ('*' : Char) = '*' := rfl
  simp only [hc3, if_pos, if_true]
  have hm1 : ¬((l.length : Int) < 0) := by omega
  simp only [hm1, if_false, if_neg]
  have htn : ((l.length : Int)).toNat = l.length := by omega
  rw [htn]
  have hfuel : ((natToStr l.length ++ ['\r']) ++ '\n' :: (l.map encodeBulkWire).flatten).length + 1 =
      (((natToStr l.length ++ ['\r']) ++ '\n' :: (l.map encodeBulkWire).flatten).length + 1
        - 2 * l.length) + 2 * l.length := by
    have := flatten_bulks_len l
    simp only [List.length_append, List.length_cons]
    omega
  rw [hfuel]
  have harr := readArrF_bulks l
    (((natToStr l.length ++ ['\r']) ++ '\n' :: (l.map encodeBulkWire).flatten).length + 1
      - 2 * l.length) [] h1
  rw [List.append_nil] at harr
  rw [harr]

/-- C3: decoding an encoded non-empty argument list reproduces the
upper-cased first element as the command name and the remaining elements,
unchanged and in order, as the arguments.  The length bounds are the Go
`int` bounds, within which every Go slice and string lives. -/
theorem readCommand_encodeFrame_roundtrip (c : GoStr) (rest : List GoStr)
    (h1 : c.length < 2 ^ 63) (h2 : ∀ s ∈ rest, s.length < 2 ^ 63)
    (h3 : rest.length + 1 < 2 ^ 63) :
    readCommand (encodeFrame (c :: rest)) = .cmd (goToUpper c) (rest.map RVal.str) [] := by
  have hall : ∀ s ∈ c :: rest, s.length < 2 ^ 63 := by
    intro s hs
    rcases List.mem_cons.mp hs with hs | hs
    · subst hs
      exact h1
    · exact h2 s hs
  have hresp := readRESP_encodeFrame (c :: rest) hall (by simp; omega)
  have hshape : encodeFrame (c :: rest) =
      '*' :: ((natToStr (c :: rest).length ++ ['\r']) ++ '\n' ::
        ((c :: rest).map encodeBulkWire).flatten) := by
    simp [encodeFrame, gs]
  rw [hshape] at hresp ⊢
  simp only [readCommand]
  have hne : ¬(('*' : Char) ≠ '*') := by decide
  simp only [List.map_cons] at hresp
  simp only [hne, if_false, if_neg, List.map_cons, hresp]

/-- Closed witness for the round-trip theorem at a concrete frame. -/
theorem readCommand_encodeFrame_roundtrip_witness :
    readCommand (encodeFrame [gs "set", gs "foo", gs "bar"]) =
      .cmd (goToUpper (gs "set")) ([gs "foo", gs "bar"].map RVal.str) [] :=
  readCommand_encodeFrame_roundtrip (gs "set") [gs "foo", gs "bar"] (by decide)
    (by decide) (by decide)

theorem addReplyBulk_single (v : GoStr) :
    addReplyBulk [.str v] = '$' :: natToStr v.length ++ gs "\r\n" ++ v ++ gs "\r\n" := by
  simp [addReplyBulk, bulkLoop]

theorem int64Wrap_of_fits (x : Int) (h1 : -(2 ^ 63) ≤ x) (h2 : x ≤ 2 ^ 63 - 1) :
    int64Wrap x = x := by
  unfold int64Wrap
  omega

/-- C1 counterexample: `SET k v PX 10000000000000` is accepted (the count
parses and fits an int64), but `time.Duration(10^13) * time.Millisecond`
wraps: the recorded instant is `now - 8446744073709551616` nanoseconds —
roughly 268 years in the past — not `now + N` milliseconds. -/
theorem handleSetCommand_wrap_counterexample :
    (handleSetCommand emptyServer 0 (gs "SET")
        [.str (gs "k"), .str (gs "v"), .str (gs "PX"), .str (gs "10000000000000")]).1 =
      gs "+OK\r\n" ∧
    mapGet (handleSetCommand emptyServer 0 (gs "SET")
        [.str (gs "k"), .str (gs "v"), .str (gs "PX"),
          .str (gs "10000000000000")]).2.expirations (gs "k") =
      some (-8446744073709551616) ∧
    ¬((-8446744073709551616 : Int) = 0 + 10000000000000 * 1000000) ∧
    (-8446744073709551616 : Int) < 0 :=
  ⟨by rfl, by rfl, by decide, by decide⟩

/-- C1 (amended): SET with two string arguments stores the value, clears
any recorded expiration for the key and replies `+OK`; with four string
arguments the third must case-insensitively be `PX` (else the option-error
reply) and the fourth must parse as a decimal int64 (else the value-error
reply), and on success the value is stored and the recorded absolute
expiration is `now` plus the int64-wrapped product `N * 1000000`
nanoseconds (`time.Duration(N) * time.Millisecond`) — equal to
`now + N` milliseconds exactly when that product fits in an int64, and a
wrapped (possibly past) instant otherwise; any other argument count gets
the arity-error reply. -/
theorem handleSetCommand_spec :
    (∀ (server : RedisServer) (now : Int) (cmd k v : GoStr),
      handleSetCommand server now cmd [.str k, .str v] =
        (gs "+OK\r\n", ⟨mapSet server.storage k v, mapErase server.expirations k⟩)) ∧
    (∀ (server : RedisServer) (now : Int) (cmd k v o ms : GoStr),
      ¬(goToUpper o = gs "PX") →
      handleSetCommand server now cmd [.str k, .str v, .str o, .str ms] =
        (gs "-ERR Invalid expiry option\r\n", server)) ∧
    (∀ (server : RedisServer) (now : Int) (cmd k v o ms : GoStr),
      goToUpper o = gs "PX" → goAtoi ms = .error () →
      handleSetCommand server now cmd [.str k, .str v, .str o, .str ms] =
        (gs "-ERR Invalid expiry value\r\n", server)) ∧
    (∀ (server : RedisServer) (now : Int) (cmd k v o ms : GoStr) (n : Int),
      goToUpper o = gs "PX" → goAtoi ms = .ok n →
      handleSetCommand server now cmd [.str k, .str v, .str o, .str ms] =
        (gs "+OK\r\n",
          ⟨mapSet server.storage k v,
            mapSet server.expirations k (now + int64Wrap (n * 1000000))⟩)) ∧
    (∀ (server : RedisServer) (now : Int) (cmd k v o ms : GoStr) (n : Int),
      goToUpper o = gs "PX" → goAtoi ms = .ok n →
      -(2 ^ 63) ≤ n * 1000000 → n * 1000000 ≤ 2 ^ 63 - 1 →
      handleSetCommand server now cmd [.str k, .str v, .str o, .str ms] =
        (gs "+OK\r\n",
          ⟨mapSet server.storage k v,
            mapSet server.expirations k (now + n * 1000000)⟩)) ∧
    (∀ (server : RedisServer) (now : Int) (cmd : GoStr) (args : List RVal),
      ¬(args.length = 2) → ¬(args.length = 4) →
      handleSetCommand server now cmd args = (addReplyErrorArity, server)) := by
  refine ⟨?_, ?_, ?_, ?_, ?_, ?_⟩
  · intro server now cmd k v
    rfl
  · intro server now cmd k v o ms h
    simp [handleSetCommand, h]
  · intro server now cmd k v o ms h1 h2
    simp [handleSetCommand, h1, h2]
  · intro server now cmd k v o ms n h1 h2
    simp [handleSetCommand, h1, h2]
  · intro server now cmd k v o ms n h1 h2 hr1 hr2
    have hw : int64Wrap (n * 1000000) = n * 1000000 := int64Wrap_of_fits _ hr1 hr2
    simp [handleSetCommand, h1, h2, hw]
  · intro server now cmd args h2 h4
    rcases args with _ | ⟨a0, _ | ⟨a1, _ | ⟨a2, _ | ⟨a3, _ | ⟨a4, t⟩⟩⟩⟩⟩
    · rfl
    · rfl
    · simp at h2
    · rfl
    · simp at h4
    · rfl

/-- Closed witness instantiating every clause of the SET theorem. -/
theorem handleSetCommand_spec_witness :
    handleSetCommand emptyServer 100 (gs "SET") [.str (gs "k"), .str (gs "v")] =
      (gs "+OK\r\n",
        ⟨mapSet emptyServer.storage (gs "k") (gs "v"),
          mapErase emptyServer.expirations (gs "k")⟩) ∧
    handleSetCommand emptyServer 100 (gs "SET")
        [.str (gs "k"), .str (gs "v"), .str (gs "EX"), .str (gs "10")] =
      (gs "-ERR Invalid expiry option\r\n", emptyServer) ∧
    handleSetCommand emptyServer 100 (gs "SET")
        [.str (gs "k"), .str (gs "v"), .str (gs "px"), .str (gs "abc")] =
      (gs "-ERR Invalid expiry value\r\n", emptyServer) ∧
    handleSetCommand emptyServer 100 (gs "SET")
        [.str (gs "k"), .str (gs "v"), .str (gs "px"), .str (gs "10")] =
      (gs "+OK\r\n",
        ⟨mapSet emptyServer.storage (gs "k") (gs "v"),
          mapSet emptyServer.expirations (gs "k")
            (100 + int64Wrap (10 * 1000000))⟩) ∧
    handleSetCommand emptyServer 100 (gs "SET")
        [.str (gs "k"), .str (gs "v"), .str (gs "px"), .str (gs "10")] =
      (gs "+OK\r\n",
        ⟨mapSet emptyServer.storage (gs "k") (gs "v"),
          mapSet emptyServer.expirations (gs "k") (100 + 10 * 1000000)⟩) ∧
    handleSetCommand emptyServer 100 (gs "SET") [.str (gs "k")] =
      (addReplyErrorArity, emptyServer) :=
  ⟨handleSetCommand_spec.1 emptyServer 100 (gs "SET") (gs "k") (gs "v"),
    handleSetCommand_spec.2.1 emptyServer 100 (gs "SET") (gs "k") (gs "v") (gs "EX")
      (gs "10") (by decide),
    handleSetCommand_spec.2.2.1 emptyServer 100 (gs "SET") (gs "k") (gs "v") (gs "px")
      (gs "abc") (by decide) (by rfl),
    handleSetCommand_spec.2.2.2.1 emptyServer 100 (gs "SET") (gs "k") (gs "v") (gs "px")
      (gs "10") 10 (by decide) (by rfl),
    handleSetCommand_spec.2.2.2.2.1 emptyServer 100 (gs "SET") (gs "k") (gs "v")
      (gs "px") (gs "10") 10 (by decide) (by rfl) (by decide) (by decide),
    handleSetCommand_spec.2.2.2.2.2 emptyServer 100 (gs "SET") [.str (gs "k")]
      (by decide) (by decide)⟩

/-- C2 counterexample: a key whose recorded expiration instant equals the
current time is served, not expired — the claim (expiration at or before
now is treated as absent, with a null-bulk reply) fails at this input. -/
theorem handleGetCommand_boundary_counterexample :
    handleGetCommand ⟨[(gs "foo", gs "bar")], [(gs "foo", 100)]⟩ 100 (gs "GET")
        [.str (gs "foo")] =
      (gs "$3\r\nbar\r\n", ⟨[(gs "foo", gs "bar")], [(gs "foo", 100)]⟩) ∧
    ¬(gs "$3\r\nbar\r\n" = gs "$-1\r\n") := by
  constructor
  · simp [handleGetCommand, mapGet, addReplyBulk, bulkLoop, gs, natToStr, natToStrAux,
      digitChar]
  · decide

/-- C2 (amended): GET expires a key only when its recorded expiration is
strictly before the current time, removing it from both maps and replying
null-bulk; otherwise a present key is returned as a bulk string and an
absent one as null-bulk, with the store untouched; any other argument count
gets the arity-error reply. -/
theorem handleGetCommand_spec :
    (∀ (server : RedisServer) (now : Int) (cmd k : GoStr) (e : Int),
      mapGet server.expirations k = some e → now > e →
      handleGetCommand server now cmd [.str k] =
        (gs "$-1\r\n", ⟨mapErase server.storage k, mapErase server.expirations k⟩)) ∧
    (∀ (server : RedisServer) (now : Int) (cmd k v : GoStr),
      (∀ e, mapGet server.expirations k = some e → now ≤ e) →
      mapGet server.storage k = some v →
      handleGetCommand server now cmd [.str k] =
        ('$' :: natToStr v.length ++ gs "\r\n" ++ v ++ gs "\r\n", server)) ∧
    (∀ (server : RedisServer) (now : Int) (cmd k : GoStr),
      (∀ e, mapGet server.expirations k = some e → now ≤ e) →
      mapGet server.storage k = none →
      handleGetCommand server now cmd [.str k] = (gs "$-1\r\n", server)) ∧
    (∀ (server : RedisServer) (now : Int) (cmd : GoStr) (args : List RVal),
      ¬(args.length = 1) →
      handleGetCommand server now cmd args = (addReplyErrorArity, server)) := by
  refine ⟨?_, ?_, ?_, ?_⟩
  · intro server now cmd k e h1 h2
    simp [handleGetCommand, h1, h2]
  · intro server now cmd k v hle hst
    cases hexp : mapGet server.expirations k with
    | none => simp [handleGetCommand, hexp, hst, addReplyBulk_single]
    | some e =>
      have hn : ¬(now > e) := not_lt.mpr (hle e hexp)
      simp [handleGetCommand, hexp, hn, hst, addReplyBulk_single]
  · intro server now cmd k hle hst
    cases hexp : mapGet server.expirations k with
    | none => simp [handleGetCommand, hexp, hst]
    | some e =>
      have hn : ¬(now > e) := not_lt.mpr (hle e hexp)
      simp [handleGetCommand, hexp, hn, hst]
  · intro server now cmd args h1
    rcases args with _ | ⟨a0, _ | ⟨a1, t⟩⟩
    · rfl
    · simp at h1
    · rfl

/-- Closed witness instantiating every clause of the GET theorem. -/
theorem handleGetCommand_spec_witness :
    handleGetCommand ⟨[(gs "foo", gs "bar")], [(gs "foo", 50)]⟩ 51 (gs "GET")
        [.str (gs "foo")] =
      (gs "$-1\r\n",
        ⟨mapErase [(gs "foo", gs "bar")] (gs "foo"),
          mapErase [(gs "foo", 50)] (gs "foo")⟩) ∧
    handleGetCommand ⟨[(gs "foo", gs "bar")], []⟩ 51 (gs "GET") [.str (gs "foo")] =
      ('$' :: natToStr (gs "bar").length ++ gs "\r\n" ++ gs "bar" ++ gs "\r\n",
        ⟨[(gs "foo", gs "bar")], []⟩) ∧
    handleGetCommand emptyServer 51 (gs "GET") [.str (gs "foo")] =
      (gs "$-1\r\n", emptyServer) ∧
    handleGetCommand emptyServer 51 (gs "GET") [] = (addReplyErrorArity, emptyServer) :=
  ⟨handleGetCommand_spec.1 ⟨[(gs "foo", gs "bar")], [(gs "foo", 50)]⟩ 51 (gs "GET")
      (gs "foo") 50 (by rfl) (by decide),
    handleGetCommand_spec.2.1 ⟨[(gs "foo", gs "bar")], []⟩ 51 (gs "GET") (gs "foo")
      (gs "bar") (by intro e he; simp [mapGet] at he) (by rfl),
    handleGetCommand_spec.2.2.1 emptyServer 51 (gs "GET") (gs "foo")
      (by intro e he; simp [emptyServer, mapGet] at he) (by rfl),
    handleGetCommand_spec.2.2.2 emptyServer 51 (gs "GET") [] (by decide)⟩

theorem mapGet_mapErase {α : Type} (m : List (GoStr × α)) (k k' : GoStr) :
    mapGet (mapErase m k) k' = if k = k' then none else mapGet m k' := by
  induction m with
  | nil => by_cases he : k = k' <;> simp [mapGet, mapErase, he]
  | cons p t ih =>
    by_cases hp : p.1 = k
    · by_cases he : k = k'
      · subst he
        simp [mapErase, hp, ih]
      · have hpk : ¬(p.1 = k') := by rw [hp]; exact he
        simp [mapErase, mapGet, hp, hpk, ih, he]
    · by_cases hpk : p.1 = k'
      · have hne : ¬(k = k') := fun he => hp (hpk.trans he.symm)
        have hne2 : ¬(k' = k) := fun hh => hne hh.symm
        simp [mapErase, mapGet, hp, hpk, hne, hne2]
      · simp [mapErase, mapGet, hp, hpk, ih]

theorem mapGet_mapSet {α : Type} (m : List (GoStr × α)) (k k' : GoStr) (v : α) :
    mapGet (mapSet m k v) k' = if k = k' then some v else mapGet m k' := by
  by_cases he : k = k' <;> simp [mapSet, mapGet, he, mapGet_mapErase]

/-- The cross-map consistency property of the Store: a key carrying an
expiration is also present in the value map. -/
def storeInv (s : RedisServer) : Prop :=
  ∀ k, (mapGet s.expirations k).isSome = true → (mapGet s.storage k).isSome = true

theorem storeInv_emptyServer : storeInv emptyServer := by
  intro k hk
  simp [emptyServer, mapGet] at hk

theorem storeInv_set_erase (s : RedisServer) (h : storeInv s) (k : GoStr) (v : GoStr) :
    storeInv ⟨mapSet s.storage k v, mapErase s.expirations k⟩ := by
  intro k' hk'
  simp only [mapGet_mapErase] at hk'
  simp only [mapGet_mapSet]
  by_cases he : k = k'
  · simp [he]
  · simp only [he, if_false, if_neg] at hk' ⊢
    exact h k' hk'

theorem storeInv_set_set (s : RedisServer) (h : storeInv s) (k : GoStr) (v : GoStr)
    (e : Int) : storeInv ⟨mapSet s.storage k v, mapSet s.expirations k e⟩ := by
  intro k' hk'
  simp only [mapGet_mapSet] at hk' ⊢
  by_cases he : k = k'
  · simp [he]
  · simp only [he, if_false, if_neg] at hk' ⊢
    exact h k' hk'

theorem storeInv_erase_erase (s : RedisServer) (h : storeInv s) (k : GoStr) :
    storeInv ⟨mapErase s.storage k, mapErase s.expirations k⟩ := by
  intro k' hk'
  simp only [mapGet_mapErase] at hk' ⊢
  by_cases he : k = k'
  · simp [he] at hk'
  · simp only [he, if_false, if_neg] at hk' ⊢
    exact h k' hk'

/-- One store operation as submitted by a client: a SET or a GET with an
arbitrary decoded argument list, at an arbitrary clock reading. -/
inductive StoreOp where
  | setOp (now : Int) (args : List RVal)
  | getOp (now : Int) (args : List RVal)

/-- The store state after one operation (the reply is discarded). -/
def applyOp (s : RedisServer) : StoreOp → RedisServer
  | .setOp now args => (handleSetCommand s now (gs "SET") args).2
  | .getOp now args => (handleGetCommand s now (gs "GET") args).2

/-- The store state after a sequence of operations. -/
def runOps (s : RedisServer) : List StoreOp → RedisServer
  | [] => s
  | op :: t => runOps (applyOp s op) t

theorem storeInv_applyOp (s : RedisServer) (op : StoreOp) (h : storeInv s) :
    storeInv (applyOp s op) := by
  cases op with
  | setOp now args =>
    simp only [applyOp]
    rcases args with _ | ⟨a0, _ | ⟨a1, _ | ⟨a2, _ | ⟨a3, _ | ⟨a4, t⟩⟩⟩⟩⟩
    · exact h
    · exact h
    · rcases a0 with s0 | xs0 | _
      · rcases a1 with s1 | xs1 | _
        · exact storeInv_set_erase s h s0 s1
        · exact h
        · exact h
      · exact h
      · exact h
    · exact h
    · rcases a0 with s0 | xs0 | _
      · rcases a1 with s1 | xs1 | _
        · rcases a2 with s2 | xs2 | _
          · by_cases hopt : goToUpper s2 = gs "PX"
            · rcases a3 with s3 | xs3 | _
              · cases hatoi : goAtoi s3 with
                | error e =>
                  have hst : (handleSetCommand s now (gs "SET")
                      [.str s0, .str s1, .str s2, .str s3]).2 = s := by
                    simp [handleSetCommand, hopt, hatoi]
                  rw [hst]
                  exact h
                | ok n =>
                  have hst : (handleSetCommand s now (gs "SET")
                      [.str s0, .str s1, .str s2, .str s3]).2 =
                      ⟨mapSet s.storage s0 s1,
                        mapSet s.expirations s0 (now + int64Wrap (n * 1000000))⟩ := by
                    simp [handleSetCommand, hopt, hatoi]
                  rw [hst]
                  exact storeInv_set_set s h s0 s1 (now + int64Wrap (n * 1000000))
              · have hst : (handleSetCommand s now (gs "SET")
                    [.str s0, .str s1, .str s2, .arr xs3]).2 = s := by
                  simp [handleSetCommand, hopt]
                rw [hst]
                exact h
              · have hst : (handleSetCommand s now (gs "SET")
                    [.str s0, .str s1, .str s2, .nil]).2 = s := by
                  simp [handleSetCommand, hopt]
                rw [hst]
                exact h
            · have hst : (handleSetCommand s now (gs "SET")
                  [.str s0, .str s1, .str s2, a3]).2 = s := by
                simp [handleSetCommand, hopt]
              rw [hst]
              exact h
          · exact h
          · exact h
        · exact h
        · exact h
      · exact h
      · exact h
    · exact h
  | getOp now args =>
    simp only [applyOp]
    rcases args with _ | ⟨a0, _ | ⟨a1, t⟩⟩
    · exact h
    · rcases a0 with s0 | xs0 | _
      · cases hexp : mapGet s.expirations s0 with
        | some e =>
          by_cases hn : now > e
          · have hst : (handleGetCommand s now (gs "GET") [.str s0]).2 =
                ⟨mapErase s.storage s0, mapErase s.expirations s0⟩ := by
              simp [handleGetCommand, hexp, hn]
            rw [hst]
            exact storeInv_erase_erase s h s0
          · cases hstg : mapGet s.storage s0 with
            | some v =>
              have hst : (handleGetCommand s now (gs "GET") [.str s0]).2 = s := by
                simp [handleGetCommand, hexp, hn, hstg]
              rw [hst]
              exact h
            | none =>
              have hst : (handleGetCommand s now (gs "GET") [.str s0]).2 = s := by
                simp [handleGetCommand, hexp, hn, hstg]
              rw [hst]
              exact h
        | none =>
          cases hstg : mapGet s.storage s0 with
          | some v =>
            have hst : (handleGetCommand s now (gs "GET") [.str s0]).2 = s := by
              simp [handleGetCommand, hexp, hstg]
            rw [hst]
            exact h
          | none =>
            have hst : (handleGetCommand s now (gs "GET") [.str s0]).2 = s := by
              simp [handleGetCommand, hexp, hstg]
            rw [hst]
            exact h
      · exact h
      · exact h
    · exact h

theorem storeInv_runOps (ops : List StoreOp) :
    ∀ s : RedisServer, storeInv s → storeInv (runOps s ops) := by
  induction ops with
  | nil => intro s h; exact h
  | cons op t ih =>
    intro s h
    exact ih (applyOp s op) (storeInv_applyOp s op h)

/-- C4: every SET (2- or 4-argument) and GET preserves the invariant that a
key in the expiration map is also in the value map, and every state
reachable from the empty store by such operations satisfies it. -/
theorem storeOps_invariant :
    (∀ (s : RedisServer) (op : StoreOp), storeInv s → storeInv (applyOp s op)) ∧
    (∀ ops : List StoreOp, storeInv (runOps emptyServer ops)) :=
  ⟨fun s op h => storeInv_applyOp s op h,
    fun ops => storeInv_runOps ops emptyServer storeInv_emptyServer⟩

/-- Closed witness for the invariant theorem on a concrete trace. -/
theorem storeOps_invariant_witness :
    storeInv (applyOp emptyServer (.setOp 0 [.str (gs "a"), .str (gs "b")])) ∧
    storeInv (runOps emptyServer
      [.setOp 0 [.str (gs "a"), .str (gs "b"), .str (gs "px"), .str (gs "9")],
        .getOp 100 [.str (gs "a")]]) :=
  ⟨storeOps_invariant.1 emptyServer (.setOp 0 [.str (gs "a"), .str (gs "b")])
      (by intro k hk; simp [emptyServer, mapGet] at hk),
    storeOps_invariant.2
      [.setOp 0 [.str (gs "a"), .str (gs "b"), .str (gs "px"), .str (gs "9")],
        .getOp 100 [.str (gs "a")]]⟩

/-- C10: whenever SET or GET returns a client-visible error reply (which
are exactly the replies whose first byte is `-`: arity, key/value/option
type and expiry-value errors), both the value map and the expiration map
are returned exactly as they were — all validation happens before any
mutation. -/
theorem handlers_error_no_mutation :
    ∀ (server : RedisServer) (now : Int) (cmd : GoStr) (args : List RVal),
      ((handleSetCommand server now cmd args).1.head? = some '-' →
        (handleSetCommand server now cmd args).2 = server) ∧
      ((handleGetCommand server now cmd args).1.head? = some '-' →
        (handleGetCommand server now cmd args).2 = server) := by
  intro server now cmd args
  constructor
  · intro h
    rcases args with _ | ⟨a0, _ | ⟨a1, _ | ⟨a2, _ | ⟨a3, _ | ⟨a4, t⟩⟩⟩⟩⟩
    · rfl
    · rfl
    · rcases a0 with s0 | xs0 | _
      · rcases a1 with s1 | xs1 | _
        · have hr : (handleSetCommand server now cmd [.str s0, .str s1]).1 =
              gs "+OK\r\n" := rfl
          rw [hr] at h
          exact absurd h (by decide)
        · rfl
        · rfl
      · rfl
      · rfl
    · rfl
    · rcases a0 with s0 | xs0 | _
      · rcases a1 with s1 | xs1 | _
        · rcases a2 with s2 | xs2 | _
          · by_cases hopt : goToUpper s2 = gs "PX"
            · rcases a3 with s3 | xs3 | _
              · cases hatoi : goAtoi s3 with
                | error e => simp [handleSetCommand, hopt, hatoi]
                | ok n =>
                  have hr : (handleSetCommand server now cmd
                      [.str s0, .str s1, .str s2, .str s3]).1 = gs "+OK\r\n" := by
                    simp [handleSetCommand, hopt, hatoi]
                  rw [hr] at h
                  exact absurd h (by decide)
              · simp [handleSetCommand, hopt]
              · simp [handleSetCommand, hopt]
            · simp [handleSetCommand, hopt]
          · rfl
          · rfl
        · rfl
        · rfl
      · rfl
      · rfl
    · rfl
  · intro h
    rcases args with _ | ⟨a0, _ | ⟨a1, t⟩⟩
    · rfl
    · rcases a0 with s0 | xs0 | _
      · cases hexp : mapGet server.expirations s0 with
        | some e =>
          by_cases hn : now > e
          · have hr : (handleGetCommand server now cmd [.str s0]).1 = gs "$-1\r\n" := by
              simp [handleGetCommand, hexp, hn]
            rw [hr] at h
            exact absurd h (by decide)
          · cases hstg : mapGet server.storage s0 with
            | some v =>
              simp [handleGetCommand, hexp, hn, hstg]
            | none =>
              simp [handleGetCommand, hexp, hn, hstg]
        | none =>
          cases hstg : mapGet server.storage s0 with
          | some v => simp [handleGetCommand, hexp, hstg]
          | none => simp [handleGetCommand, hexp, hstg]
      · rfl
      · rfl
    · rfl

/-- Closed witness for the no-mutation theorem at concrete error inputs. -/
theorem handlers_error_no_mutation_witness :
    (handleSetCommand emptyServer 7 (gs "SET") [.str (gs "k")]).2 = emptyServer ∧
    (handleGetCommand emptyServer 7 (gs "GET") []).2 = emptyServer :=
  ⟨(handlers_error_no_mutation emptyServer 7 (gs "SET") [.str (gs "k")]).1 (by rfl),
    (handlers_error_no_mutation emptyServer 7 (gs "GET") []).2 (by rfl)⟩

/-- The descriptor-entry body used in concrete registry examples (the shape
of the real `ping.json`: arity -1, function token `pingCommand`). -/
def pingInfo : CommandInfoM :=
  ⟨gs "connection", -1, gs "pingCommand", [gs "FAST"], [gs "@fast"]⟩

/-- A descriptor entry whose function-name token matches no handler in
`getFunctionByName`. -/
def fooInfo : CommandInfoM := ⟨gs "generic", 1, gs "fooCommand", [], []⟩

/-- C5: a registered command whose descriptor referenced an unknown
function token resolves to a nil handler, and dispatching it calls that nil
function — a Go runtime panic that crashes the process, not the server-side
error reply the specification mandates. -/
theorem dispatchOne_nilHandler_panics :
    getFunctionByName (gs "fooCommand") = none ∧
    (mapGet (loadCommands [(gs "FOO", fooInfo)]) (gs "FOO")).isSome = true ∧
    dispatchOne (loadCommands [(gs "FOO", fooInfo)]) emptyServer 0 (gs "FOO") [] =
      .panic :=
  ⟨by rfl, by rfl, by rfl⟩

/-- C6: the RESP decoder does not always return a value or an error — a
bulk-string length below `-1` or a negative array count drives a negative
`make`/slice and panics (crashing the process), while genuinely unparsable
lengths are returned as errors. -/
theorem readRESP_negative_length_panics :
    readRESP (gs "$-2\r\n") = .panic ∧
    readRESP (gs "$-5\r\nhello\r\n") = .panic ∧
    readRESP (gs "*-1\r\n") = .panic ∧
    readRESP (gs "$abc\r\n") = .err ∧
    readRESP (gs "!oops\r\n") = .err :=
  ⟨by rfl, by rfl, by rfl, by rfl, by rfl⟩

/-- C7 counterexample: loading a descriptor whose name token is lower-case
`ping` yields a registry with key `ping` verbatim; the canonical upper-case
lookup `PING` fails, so the registry is not indexed by the upper-cased
token. -/
theorem loadCommands_lowercase_counterexample :
    mapGet (loadCommands [(gs "ping", pingInfo)]) (goToUpper (gs "ping")) = none ∧
    (mapGet (loadCommands [(gs "ping", pingInfo)]) (gs "ping")).isSome = true :=
  ⟨by rfl, by rfl⟩

theorem loadCommands_aux (entries : List (GoStr × CommandInfoM)) :
    ∀ (table : List (GoStr × RedisCommand)) (key : GoStr),
      ((mapGet (entries.foldl
          (fun tb e => mapSet tb e.1 (mkRedisCommand e.1 e.2)) table) key).isSome = true ↔
        (mapGet table key).isSome = true ∨ ∃ p ∈ entries, p.1 = key) := by
  induction entries with
  | nil => intro table key; simp
  | cons e t ih =>
    intro table key
    simp only [List.foldl_cons]
    rw [ih]
    rw [mapGet_mapSet]
    by_cases he : e.1 = key
    · simp [he]
    · have hne : ¬(key = e.1) := fun hh => he hh.symm
      simp only [he, if_false, if_neg, List.mem_cons]
      constructor
      · rintro (hl | ⟨p, hp, hpk⟩)
        · exact Or.inl hl
        · exact Or.inr ⟨p, Or.inr hp, hpk⟩
      · rintro (hl | ⟨p, hp | hp, hpk⟩)
        · exact Or.inl hl
        · subst hp
          exact absurd hpk he
        · exact Or.inr ⟨p, hp, hpk⟩

/-- C7 (amended): the registry is keyed by each descriptor's name token
verbatim (no case normalization at load time): a lookup succeeds exactly
when some descriptor entry carries that exact token, so the canonical
upper-case lookup works only for descriptors already written upper-case. -/
theorem loadCommands_verbatim_index :
    ∀ (entries : List (GoStr × CommandInfoM)) (key : GoStr),
      (mapGet (loadCommands entries) key).isSome = true ↔ ∃ p ∈ entries, p.1 = key := by
  intro entries key
  rw [loadCommands, loadCommands_aux entries [] key]
  simp [mapGet]

mutual

/-- Modelled from the spec: the reply encoding the specification describes
for a list of bulk values — each element's bulk encoding concatenated in
order, nested lists recursing in place, null as the null bulk. -/
def specBulkEncoding : RVal → GoStr
  | .str s => '$' :: natToStr s.length ++ gs "\r\n" ++ s ++ gs "\r\n"
  | .arr xs => specConcat xs
  | .nil => gs "$-1\r\n"

/-- Modelled from the spec: concatenation of the elements' bulk encodings. -/
def specConcat : List RVal → GoStr
  | [] => []
  | x :: t => specBulkEncoding x ++ specConcat t

end

/-- C8 counterexample: on `["a", ["b"]]` the encoder returns only the
nested list's encoding, dropping the already-encoded `"a"` — the output is
not the in-order concatenation of every element's bulk encoding. -/
theorem addReplyBulk_nested_drop_counterexample :
    addReplyBulk [.str (gs "a"), .arr [.str (gs "b")]] = gs "$1\r\nb\r\n" ∧
    ¬(addReplyBulk [.str (gs "a"), .arr [.str (gs "b")]] =
        specConcat [.str (gs "a"), .arr [.str (gs "b")]]) := by
  have h1 : addReplyBulk [.str (gs "a"), .arr [.str (gs "b")]] = gs "$1\r\nb\r\n" := by
    simp only [addReplyBulk, bulkLoop]
    decide
  have h2 : specConcat [.str (gs "a"), .arr [.str (gs "b")]] =
      gs "$1\r\na\r\n$1\r\nb\r\n" := by
    simp only [specConcat, specBulkEncoding]
    decide
  refine ⟨h1, ?_⟩
  rw [h1, h2]
  decide

theorem bulkLoop_strs (ss : List GoStr) :
    ∀ (acc : GoStr) (r : List RVal),
      bulkLoop acc (ss.map RVal.str ++ r) =
        bulkLoop (acc ++ specConcat (ss.map RVal.str)) r := by
  induction ss with
  | nil => intro acc r; simp [specConcat]
  | cons s t ih =>
    intro acc r
    simp only [List.map_cons, List.cons_append, bulkLoop, specConcat, specBulkEncoding]
    rw [ih]
    simp [List.append_assoc]

/-- C8 (amended): the empty list encodes as `+\r\n`; a non-empty all-string
list encodes as the in-order concatenation of the elements' bulk encodings;
but at the first non-string element everything accumulated so far and every
later element is discarded — a nested list yields exactly the encoder's
output for that nested list alone, and a null element yields the
unknown-argument-type error reply. -/
theorem addReplyBulk_spec :
    (addReplyBulk [] = gs "+\r\n") ∧
    (∀ ss : List GoStr, ¬(ss = []) →
      addReplyBulk (ss.map RVal.str) = specConcat (ss.map RVal.str)) ∧
    (∀ (ss : List GoStr) (v : List RVal) (rest : List RVal),
      addReplyBulk (ss.map RVal.str ++ .arr v :: rest) = addReplyBulk v) ∧
    (∀ (ss : List GoStr) (rest : List RVal),
      addReplyBulk (ss.map RVal.str ++ .nil :: rest) =
        gs "-ERR Unknown argument type <nil>\r\n") := by
  refine ⟨by simp [addReplyBulk], ?_, ?_, ?_⟩
  · intro ss hne
    obtain ⟨s, t, hst⟩ := List.exists_cons_of_ne_nil hne
    subst hst
    have hemp : ((s :: t).map RVal.str).isEmpty = false := by simp
    rw [addReplyBulk, hemp]
    simp only [Bool.false_eq_true, if_false, if_neg]
    have := bulkLoop_strs (s :: t) [] []
    rw [List.append_nil] at this
    rw [this]
    simp [bulkLoop]
  · intro ss v rest
    have hemp : (ss.map RVal.str ++ RVal.arr v :: rest).isEmpty = false := by simp
    rw [addReplyBulk, hemp]
    simp only [Bool.false_eq_true, if_false, if_neg]
    rw [bulkLoop_strs ss [] (RVal.arr v :: rest)]
    simp [bulkLoop]
  · intro ss rest
    have hemp : (ss.map RVal.str ++ RVal.nil :: rest).isEmpty = false := by simp
    rw [addReplyBulk, hemp]
    simp only [Bool.false_eq_true, if_false, if_neg]
    rw [bulkLoop_strs ss [] (RVal.nil :: rest)]
    simp [bulkLoop]

/-- Closed witness instantiating the bulk-encoder theorem. -/
theorem addReplyBulk_spec_witness :
    addReplyBulk ([gs "a", gs "b"].map RVal.str) =
      specConcat ([gs "a", gs "b"].map RVal.str) ∧
    addReplyBulk ([gs "a"].map RVal.str ++ .arr [.str (gs "b")] :: [.str (gs "c")]) =
      addReplyBulk [.str (gs "b")] ∧
    addReplyBulk ([gs "a"].map RVal.str ++ .nil :: []) =
      gs "-ERR Unknown argument type <nil>\r\n" :=
  ⟨addReplyBulk_spec.2.1 [gs "a", gs "b"] (by decide),
    addReplyBulk_spec.2.2.1 [gs "a"] [.str (gs "b")] [.str (gs "c")],
    addReplyBulk_spec.2.2.2 [gs "a"] []⟩

/-- C9 counterexample: PING with a single null argument (a `$-1` element of
the request array) replies with the unknown-argument-type error, not with
the argument echoed back as a (null) bulk value. -/
theorem handlePingCommand_nil_counterexample :
    handlePingCommand (loadCommands [(gs "PING", pingInfo)]) (gs "PING") [RVal.nil] =
      gs "-ERR Unknown argument type <nil>\r\n" ∧
    ¬(handlePingCommand (loadCommands [(gs "PING", pingInfo)]) (gs "PING") [RVal.nil] =
        gs "$-1\r\n") := by
  have h : handlePingCommand (loadCommands [(gs "PING", pingInfo)]) (gs "PING")
      [RVal.nil] = gs "-ERR Unknown argument type <nil>\r\n" := by
    simp [handlePingCommand, addReplyBulk, bulkLoop]
  refine ⟨h, ?_⟩
  rw [h]
  decide

/-- C9 (amended): PING with zero arguments replies `+PONG` (via the
registry record, whose name is the descriptor token `PING`); with one bulk
string argument it echoes it as a bulk string; with one null argument it
replies the unknown-argument-type error; with more than one argument it
replies the arity error. -/
theorem handlePingCommand_spec :
    (∀ table : List (GoStr × RedisCommand),
      (lookupOrZero table (gs "PING")).name = gs "PING" →
      handlePingCommand table (gs "PING") [] = gs "+PONG\r\n") ∧
    (∀ (table : List (GoStr × RedisCommand)) (cmd s : GoStr),
      handlePingCommand table cmd [.str s] =
        '$' :: natToStr s.length ++ gs "\r\n" ++ s ++ gs "\r\n") ∧
    (∀ (table : List (GoStr × RedisCommand)) (cmd : GoStr),
      handlePingCommand table cmd [RVal.nil] =
        gs "-ERR Unknown argument type <nil>\r\n") ∧
    (∀ (table : List (GoStr × RedisCommand)) (cmd : GoStr) (args : List RVal),
      args.length > 1 → handlePingCommand table cmd args = addReplyErrorArity) := by
  refine ⟨?_, ?_, ?_, ?_⟩
  · intro table hname
    simp [handlePingCommand, addReply, hname]
  · intro table cmd s
    simp [handlePingCommand, addReplyBulk_single]
  · intro table cmd
    simp [handlePingCommand, addReplyBulk, bulkLoop]
  · intro table cmd args hlen
    simp [handlePingCommand, hlen]

/-- Closed witness instantiating the PING theorem. -/
theorem handlePingCommand_spec_witness :
    handlePingCommand (loadCommands [(gs "PING", pingInfo)]) (gs "PING") [] =
      gs "+PONG\r\n" ∧
    handlePingCommand [] (gs "PING") [.str (gs "hey")] =
      '$' :: natToStr (gs "hey").length ++ gs "\r\n" ++ gs "hey" ++ gs "\r\n" ∧
    handlePingCommand [] (gs "PING") [RVal.nil] =
      gs "-ERR Unknown argument type <nil>\r\n" ∧
    handlePingCommand [] (gs "PING") [.str (gs "a"), .str (gs "b")] =
      addReplyErrorArity :=
  ⟨handlePingCommand_spec.1 (loadCommands [(gs "PING", pingInfo)]) (by rfl),
    handlePingCommand_spec.2.1 [] (gs "PING") (gs "hey"),
    handlePingCommand_spec.2.2.1 [] (gs "PING"),
    handlePingCommand_spec.2.2.2 [] (gs "PING") [.str (gs "a"), .str (gs "b")]
      (by decide)⟩
